import Mathlib

/-!
Verification of the cross-document identity resolution and outline
reconstruction engine of an EPUB-to-PDF converter (`src/converter.py`).

Strings are modelled as `List Char`; Python dicts as insertion-ordered
association lists with in-place overwrite; the BeautifulSoup tree is
modelled at the granularity the engine inspects it (a fragment's list of
element ids, a fragment's list of anchor links with their text content).
-/

set_option maxRecDepth 10000

abbrev Str := List Char

/-- Coerce a string literal to the `List Char` representation. -/
def S (s : String) : Str := s.data

/-- `startsW p s`: `s` starts with `p` (Python `str.startswith`). -/
def startsW : Str → Str → Bool
  | [], _ => true
  | _ :: _, [] => false
  | a :: p, b :: s => a == b && startsW p s

/-- `endsW p s`: `s` ends with `p` (Python `str.endswith`). -/
def endsW (p s : Str) : Bool := startsW p.reverse s.reverse

/-- `containsSeq n h`: `n` occurs in `h` as a contiguous substring (Python `in`). -/
def containsSeq (needle : Str) : Str → Bool
  | [] => needle.isEmpty
  | c :: t => startsW needle (c :: t) || containsSeq needle t

/-- Split at the first occurrence of `c` (Python `str.split(c, 1)` when `c` occurs). -/
def splitFirst? (c : Char) : Str → Option (Str × Str)
  | [] => none
  | a :: t =>
    if a = c then some ([], t)
    else (splitFirst? c t).map (fun pr => (a :: pr.1, pr.2))

/-- Python `str.replace('/', '_').replace('\\', '_')` acting on one character. -/
def flattenChar (c : Char) : Char := if c = '/' ∨ c = '\\' then '_' else c

/-- Python `file_name.replace('/', '_').replace('\\', '_')`. -/
def flatten (p : Str) : Str := p.map flattenChar

/-- Split a separator-free string at its last dot: `some (a, b)` with
`s = a ++ '.' :: b` and no dot in `b`. -/
def splitLastDot : Str → Option (Str × Str)
  | [] => none
  | c :: t =>
    match splitLastDot t with
    | some pr => some (c :: pr.1, pr.2)
    | none => if c = '.' then some ([], t) else none

/-- `os.path.splitext(s)[0]` for a string that contains no path separator:
strip from the last dot unless every character before it is a dot. -/
def stemOf (s : Str) : Str :=
  match splitLastDot s with
  | none => s
  | some pr => if pr.1.all (fun c => c = '.') then s else pr.1

/-- The chapter prefix derived in `build_global_id_registry`:
`os.path.splitext(file_name.replace('/', '_').replace('\\', '_'))[0]`. -/
def chapterPfx (p : Str) : Str := stemOf (flatten p)

/-- `os.path.basename` (posix): the part after the last slash. -/
def basename (p : Str) : Str := (p.reverse.takeWhile (fun c => c ≠ '/')).reverse

/-- `os.path.dirname` (posix): everything up to the last slash, with trailing
slashes stripped unless the head is all slashes. -/
def dirname (p : Str) : Str :=
  let head := (p.reverse.dropWhile (fun c => c ≠ '/')).reverse
  if head.all (fun c => c = '/') then head
  else (head.reverse.dropWhile (fun c => c = '/')).reverse

/-- `os.path.join(a, b)` (posix) for two components. -/
def joinPath (a b : Str) : Str :=
  if startsW (S "/") b then b
  else if a = [] ∨ endsW (S "/") a then a ++ b
  else a ++ '/' :: b

/-- Python `str.split('/')`. -/
def splitSep : Str → List Str
  | [] => [[]]
  | c :: t =>
    match splitSep t with
    | [] => [[]]
    | h :: r => if c = '/' then [] :: h :: r else (c :: h) :: r

/-- `'/'.join(comps)`. -/
def joinComps : List Str → Str
  | [] => []
  | [x] => x
  | x :: xs => x ++ '/' :: joinComps xs

/-- One step of the `os.path.normpath` component loop. -/
def normStep (slashes : Nat) (acc : List Str) (comp : Str) : List Str :=
  if comp = [] ∨ comp = ['.'] then acc
  else if comp ≠ S ".." ∨ (slashes = 0 ∧ acc = []) ∨ acc.getLast? = some (S "..") then
    acc ++ [comp]
  else acc.dropLast

/-- `os.path.normpath` (posix). -/
def normpath (p : Str) : Str :=
  if p = [] then ['.'] else
  let slashes : Nat :=
    if startsW (S "//") p ∧ ¬ startsW (S "///") p then 2
    else if startsW (S "/") p then 1 else 0
  let comps := (splitSep p).foldl (normStep slashes) []
  let res := List.replicate slashes '/' ++ joinComps comps
  if res = [] then ['.'] else res

/-! ## Dicts

Python dict with in-place overwrite and insertion order, as an association
list: updating an existing key rewrites its slot, a new key is appended. -/

abbrev Dict (α : Type) := List (Str × α)

/-- Python `d[k] = v`. -/
def dinsert {α : Type} : Dict α → Str → α → Dict α
  | [], k, v => [(k, v)]
  | e :: t, k, v => if e.1 = k then (k, v) :: t else e :: dinsert t k v

/-- Python `d.get(k)` / `k in d`. -/
def dlookup {α : Type} (d : Dict α) (k : Str) : Option α :=
  (d.find? (fun e => decide (e.1 = k))).map (fun e => e.2)

/-- First key of `keys` present in `d` wins (the `for key in lookup_keys` loops). -/
def resolveFirst {α : Type} (d : Dict α) : List Str → Option α
  | [] => none
  | k :: ks =>
    match dlookup d k with
    | some v => some v
    | none => resolveFirst d ks

/-! ## Data model -/

/-- A content-bearing spine fragment: its path inside the package and the
ids of its elements carrying `id=` attributes, in document order. -/
structure Fragment where
  path : Str
  ids : List Str
deriving DecidableEq, Repr

/-- `f"{chapter_prefix}_{original_id}"`. -/
def globalId (pfx i : Str) : Str := pfx ++ '_' :: i

/-! ## ID Registry Builder (`build_global_id_registry`) -/

/-- Register one element id: the bare id, `path#id` and `basename#id` keys all
map to the prefixed id. -/
def regOne (pfx path : Str) (r : Dict Str) (i : Str) : Dict Str :=
  dinsert
    (dinsert
      (dinsert r i (globalId pfx i))
      (path ++ '#' :: i) (globalId pfx i))
    (basename path ++ '#' :: i) (globalId pfx i)

/-- Process one fragment of the registry-building pass. -/
def registerFragment (acc : Dict Str × Dict Str) (f : Fragment) : Dict Str × Dict Str :=
  (f.ids.foldl (regOne (chapterPfx f.path) f.path) acc.1,
   dinsert acc.2 f.path (chapterPfx f.path))

/-- Pass 1 over the spine, in reading order. -/
def buildGlobalIdRegistry (fs : List Fragment) : Dict Str × Dict Str :=
  fs.foldl registerFragment ([], [])

/-! ## Link Rewriter (`fix_internal_links_with_registry`) -/

/-- A node of a fragment's inline content as the rewriter sees it: an `<a>`
element with an `href` and its text content, or plain text. -/
inductive Node where
  | link (href : Str) (text : Str)
  | text (t : Str)
deriving DecidableEq, Repr

/-- `href.startswith(('http://', 'https://', 'mailto:', 'tel:'))`. -/
def externalHref (href : Str) : Bool :=
  startsW (S "http://") href || startsW (S "https://") href ||
  startsW (S "mailto:") href || startsW (S "tel:") href

/-- The page-number-link test: `'#page_' in href` and
`href.split('#')[1].startswith('page_')`. -/
def pageAnchorCheck (href : Str) : Bool :=
  containsSeq (S "#page_") href &&
    match splitFirst? '#' href with
    | some pr => startsW (S "page_") (pr.2.takeWhile (fun c => c ≠ '#'))
    | none => false

/-- `href.endswith(('.html', '.xhtml', '.htm'))`. -/
def htmlHref (href : Str) : Bool :=
  endsW (S ".html") href || endsW (S ".xhtml") href || endsW (S ".htm") href

/-- Candidate registry keys for a cross-file reference `filePart#anchor`. -/
def crossKeys (cur fp a : Str) : List Str :=
  [fp ++ '#' :: a, basename fp ++ '#' :: a] ++
    (if startsW (S "/") fp then []
     else [normpath (joinPath (dirname cur) fp) ++ '#' :: a])

/-- Candidate prefix-map keys for a bare file reference. -/
def fileKeys (cur href : Str) : List Str :=
  [href, basename href] ++
    (if startsW (S "/") href then []
     else [normpath (joinPath (dirname cur) href)])

/-- Rewrite one node as the Pass-2 loop body does; the second component is
the number of resolution-failure warnings recorded for the node. -/
def fixNode (cur pfx : Str) (reg f2p : Dict Str) : Node → Node × Nat
  | .text t => (.text t, 0)
  | .link href txt =>
    if externalHref href then (.link href txt, 0)
    else if pageAnchorCheck href then (.text txt, 0)
    else
      match splitFirst? '#' href with
      | some pr =>
        if pr.1 = [] then
          match dlookup reg pr.2 with
          | some g => (.link ('#' :: g) txt, 0)
          | none => (.link ('#' :: (pfx ++ '_' :: pr.2)) txt, 0)
        else
          match resolveFirst reg (crossKeys cur pr.1 pr.2) with
          | some g => (.link ('#' :: g) txt, 0)
          | none => (.link href txt, 1)
      | none =>
        if htmlHref href then
          match resolveFirst f2p (fileKeys cur href) with
          | some p => (.link ('#' :: p) txt, 0)
          | none => (.link href txt, 1)
        else (.link href txt, 0)

/-- Rewrite a fragment's nodes in order, summing recorded failures. -/
def fixNodes (cur pfx : Str) (reg f2p : Dict Str) : List Node → List Node × Nat
  | [] => ([], 0)
  | n :: t =>
    let r := fixNode cur pfx reg f2p n
    let rest := fixNodes cur pfx reg f2p t
    (r.1 :: rest.1, r.2 + rest.2)

/-! ## ID Deduplicator and merged document (`deduplicate_ids`, `process_epub`)

`deduplicate_ids` renames every element id to `prefix_id`; `process_epub`
then wraps the fragment body in `<section id="{chapter_prefix}">`.  The
identifiers one processed fragment contributes to the merged document: -/

/-- Identifier list contributed by one fragment after dedup and wrapping. -/
def fragIds (f : Fragment) : List Str :=
  chapterPfx f.path :: f.ids.map (globalId (chapterPfx f.path))

/-- All identifiers of the merged flattened document, in reading order. -/
def mergedIds : List Fragment → List Str
  | [] => []
  | f :: t => fragIds f ++ mergedIds t

/-! ## Anchor-to-Location Mapper (`build_anchor_to_page_map`) -/

/-- A rendered page: its extracted text and the destination strings of its
link annotations. -/
structure Page where
  text : Str
  dests : List Str
deriving Repr

/-- The candidate identifier set actually scanned for: every registry key,
every key's part after the first `#`, every registry value, and every
fragment-prefix value. -/
def candidateIds (reg f2p : Dict Str) : List Str :=
  reg.map (fun e => e.1) ++
  reg.filterMap (fun e => (splitFirst? '#' e.1).map (fun pr => pr.2)) ++
  reg.map (fun e => e.2) ++
  f2p.map (fun e => e.2)

/-- Modelled from the spec: the candidate set as the specification describes
it — "every registry value, every registry key's anchor suffix (the part
after '#'), and every fragment-prefix value" — omitting the full registry
keys themselves. -/
def specCandidateIds (reg f2p : Dict Str) : List Str :=
  reg.filterMap (fun e => (splitFirst? '#' e.1).map (fun pr => pr.2)) ++
  reg.map (fun e => e.2) ++
  f2p.map (fun e => e.2)

/-- Candidate occurs on a page: as a substring of its text, or of one of its
destination records. -/
def pageHas (c : Str) (pg : Page) : Bool :=
  containsSeq c pg.text || pg.dests.any (fun d => containsSeq c d)

/-- Scan one page: the annotation-destination loop, then the text loop;
a candidate already bound is never rebound. -/
def scanPage (cands : List Str) (idx : Nat) (pg : Page) (m : Dict Nat) : Dict Nat :=
  let m1 := cands.foldl
    (fun m c =>
      if pg.dests.any (fun d => containsSeq c d) && (dlookup m c).isNone
      then dinsert m c idx else m) m
  cands.foldl
    (fun m c =>
      if containsSeq c pg.text && (dlookup m c).isNone
      then dinsert m c idx else m) m1

/-- Scan all pages in ascending order. -/
def buildAnchorToPageMap (pages : List Page) (reg f2p : Dict Str) : Dict Nat :=
  (pages.foldl
    (fun st pg => (scanPage (candidateIds reg f2p) st.2 pg st.1, st.2 + 1))
    (([] : Dict Nat), 0)).1

/-- Index of the first element satisfying `p`. -/
def firstIdx? {α : Type} (p : α → Bool) : List α → Option Nat
  | [] => none
  | x :: t => if p x then some 0 else (firstIdx? p t).map (fun i => i + 1)

/-! ## Outline Builder (`add_bookmarks_to_pdf`) -/

/-- A flat TOC entry `(level, title, href)` from `extract_toc_with_hierarchy`. -/
structure TocEntry where
  level : Nat
  title : Str
  href : Str
deriving DecidableEq, Repr

/-- A created outline node: title, target page index, and the creation-order
index of its parent node, if any. -/
structure Bookmark where
  title : Str
  page : Nat
  parent : Option Nat
deriving DecidableEq, Repr

/-- The registry lookup keys the bookmark pass tries for `href` with a `#`. -/
def bookmarkKeys (href fp a : Str) : List Str :=
  [href, fp ++ '#' :: a, a] ++ (if fp = [] then [] else [basename fp ++ '#' :: a])

/-- Resolve a TOC target to a global identifier; `[]` plays Python's falsy
`None`/empty-string role. -/
def resolveTargetId (reg f2p : Dict Str) (href : Str) : Str :=
  match splitFirst? '#' href with
  | some pr =>
    let t1 := (resolveFirst reg (bookmarkKeys href pr.1 pr.2)).getD []
    let t2 :=
      if t1 = [] ∧ pr.1 ≠ [] then (resolveFirst f2p [pr.1, basename pr.1]).getD []
      else t1
    if t2 = [] then pr.2 else t2
  | none =>
    if htmlHref href then (resolveFirst f2p [href, basename href]).getD [] else []

/-- The page-map keys tried for a resolved target id. -/
def pageSearchKeys (tid : Str) : List Str :=
  [tid, tid.map Char.toLower, tid.map (fun c => if c = '_' then '-' else c)]

/-- Resolve a target id to a page index, defaulting to page 0. -/
def resolvePage (a2p : Dict Nat) (tid : Str) : Nat :=
  if tid = [] then 0
  else
    match resolveFirst a2p (pageSearchKeys tid) with
    | some n => n
    | none => 0

/-- One iteration of the bookmark loop: resolve target and page, pop the
parent stack down to the entry's level, create the node, push it. -/
def bookmarkStep (reg f2p : Dict Str) (a2p : Dict Nat)
    (st : List (Nat × Nat) × List Bookmark) (e : TocEntry) :
    List (Nat × Nat) × List Bookmark :=
  let tid := resolveTargetId reg f2p e.href
  let pg := resolvePage a2p tid
  let stack2 := st.1.dropWhile (fun pr => decide (e.level ≤ pr.1))
  let parent := stack2.head?.map (fun pr => pr.2)
  ((e.level, st.2.length) :: stack2, st.2 ++ [⟨e.title, pg, parent⟩])

/-- The whole bookmark pass over the flat TOC sequence. -/
def addBookmarks (entries : List TocEntry) (reg f2p : Dict Str) (a2p : Dict Nat) :
    List Bookmark :=
  (entries.foldl (bookmarkStep reg f2p a2p) ([], [])).2

/-- The fragment latest in spine order whose ids contain `x`. -/
def lastContaining (fs : List Fragment) (x : Str) : Option Fragment :=
  fs.reverse.find? (fun f => decide (x ∈ f.ids))

-- sanity checks on path primitives (mirroring Python behaviour)
example : chapterPfx (S "OEBPS/text/ch01.xhtml") = S "OEBPS_text_ch01" := by decide
example : chapterPfx (S "a/b.html") = S "a_b" := by decide
example : chapterPfx (S "a_b.html") = S "a_b" := by decide
example : basename (S "a/b/c.html") = S "c.html" := by decide
example : dirname (S "a/b/c.html") = S "a/b" := by decide
example : dirname (S "c.html") = S "" := by decide
example : normpath (S "a/b/../c.html") = S "a/c.html" := by decide
example : normpath (S "../x.html") = S "../x.html" := by decide
example : joinPath (S "") (S "sub/a.html") = S "sub/a.html" := by decide
example : normpath (S "a//b/./c") = S "a/b/c" := by decide
example : splitFirst? '#' (S "a.html#x") = some (S "a.html", S "x") := by decide
example : pageAnchorCheck (S "toc.html#page_42") = true := by decide
example : pageAnchorCheck (S "toc.html#sec1") = false := by decide

/-! ## Helper lemmas -/

theorem dlookup_cons {α : Type} (e : Str × α) (t : Dict α) (k : Str) :
    dlookup (e :: t) k = if e.1 = k then some e.2 else dlookup t k := by
  by_cases h : e.1 = k <;> simp [dlookup, List.find?, h]

theorem dlookup_dinsert {α : Type} (d : Dict α) (k k' : Str) (v : α) :
    dlookup (dinsert d k v) k' = if k' = k then some v else dlookup d k' := by
  induction d with
  | nil =>
    by_cases h : k' = k
    · simp [dinsert, dlookup_cons, h]
    · have h1 : ¬ k = k' := fun hh => h hh.symm
      simp [dinsert, dlookup_cons, h, h1, dlookup]
  | cons e t ih =>
    simp only [dinsert]
    by_cases he : e.1 = k
    · rw [if_pos he, dlookup_cons, dlookup_cons]
      by_cases h : k' = k
      · simp [h]
      · have h1 : ¬ k = k' := fun hh => h hh.symm
        have h2 : ¬ e.1 = k' := by rw [he]; exact h1
        simp [h, h1, h2]
    · rw [if_neg he, dlookup_cons, dlookup_cons, ih]
      by_cases h : e.1 = k'
      · have hk : ¬ k' = k := fun hh => he (by rw [h, hh])
        simp [h, hk]
      · simp [h]

theorem dlookup_nil {α : Type} (k : Str) : dlookup ([] : Dict α) k = none := rfl

theorem splitFirst?_hash_append (fp a : Str) (h : '#' ∉ fp) :
    splitFirst? '#' (fp ++ '#' :: a) = some (fp, a) := by
  induction fp with
  | nil => simp [splitFirst?]
  | cons c t ih =>
    simp only [List.mem_cons, not_or] at h
    simp [splitFirst?, (show ¬ c = '#' from fun hh => h.1 hh.symm), ih h.2]

theorem externalHref_hash (a : Str) : externalHref ('#' :: a) = false := rfl

theorem fixNode_samefile (cur pfx : Str) (reg f2p : Dict Str) (a txt : Str)
    (h : pageAnchorCheck ('#' :: a) = false) :
    fixNode cur pfx reg f2p (.link ('#' :: a) txt) =
      (.link ('#' :: ((dlookup reg a).getD (pfx ++ '_' :: a))) txt, 0) := by
  simp only [fixNode, externalHref_hash, h, Bool.false_eq_true, if_false]
  have hs : splitFirst? '#' ('#' :: a) = some ([], a) := by simp [splitFirst?]
  rw [hs]
  cases hr : dlookup reg a <;> simp [hr]

theorem fixNode_cross (cur pfx : Str) (reg f2p : Dict Str) (fp a txt : Str)
    (h1 : fp ≠ []) (h2 : '#' ∉ fp)
    (h3 : externalHref (fp ++ '#' :: a) = false)
    (h4 : pageAnchorCheck (fp ++ '#' :: a) = false) :
    fixNode cur pfx reg f2p (.link (fp ++ '#' :: a) txt) =
      (match resolveFirst reg (crossKeys cur fp a) with
       | some g => (Node.link ('#' :: g) txt, 0)
       | none => (Node.link (fp ++ '#' :: a) txt, 1)) := by
  simp only [fixNode, h3, h4, Bool.false_eq_true, if_false,
    splitFirst?_hash_append fp a h2]
  simp [h1]

/-! ## Claim C3 -/

/-- C3 counterexample: for the absolute-path link `/a/b/../c.html#x` the
directory-resolved normalized key `/a/c.html#x` is present in the registry,
so under the claimed three-key order the link would be rewritten; the code
skips the resolved key for absolute paths, tries only the exact and basename
keys (both missing), and leaves the link unmodified with one
resolution-failure diagnostic. -/
theorem C3_counterexample :
    fixNode (S "cur.html") (S "cur") [(S "/a/c.html#x", S "g_x")] []
        (.link (S "/a/b/../c.html" ++ '#' :: S "x") (S "t")) =
      (.link (S "/a/b/../c.html" ++ '#' :: S "x") (S "t"), 1) ∧
    dlookup [(S "/a/c.html#x", S "g_x")]
        (normpath (joinPath (dirname (S "cur.html")) (S "/a/b/../c.html"))
          ++ '#' :: S "x") = some (S "g_x") ∧
    dlookup [(S "/a/c.html#x", S "g_x")] (S "/a/b/../c.html" ++ '#' :: S "x") = none ∧
    dlookup [(S "/a/c.html#x", S "g_x")]
        (basename (S "/a/b/../c.html") ++ '#' :: S "x") = none := by decide

/-- C3 (amended): for a cross-file link `filePart#anchor` (non-external,
non-page-number): when `filePart` is relative the rewriter tries registry
keys in exactly this order — exact `filePart#anchor`,
`basename(filePart)#anchor`, then `filePart` resolved against the current
fragment's directory and normalized followed by `#anchor` — while when
`filePart` is absolute the directory-resolved key is omitted and only the
exact and basename keys are tried; the first tried key present in the
registry wins and the link is rewritten to `#` + that global id; if no tried
key is present the link's target is left unmodified and exactly one
resolution-failure diagnostic is recorded. -/
theorem C3_cross_link_resolution_order (cur pfx : Str) (reg f2p : Dict Str)
    (fp a txt : Str)
    (h1 : fp ≠ []) (h2 : '#' ∉ fp)
    (h3 : externalHref (fp ++ '#' :: a) = false)
    (h4 : pageAnchorCheck (fp ++ '#' :: a) = false) :
    (startsW (S "/") fp = false →
      fixNode cur pfx reg f2p (.link (fp ++ '#' :: a) txt) =
        (match dlookup reg (fp ++ '#' :: a),
               dlookup reg (basename fp ++ '#' :: a),
               dlookup reg (normpath (joinPath (dirname cur) fp) ++ '#' :: a) with
         | some g, _, _ => (Node.link ('#' :: g) txt, 0)
         | none, some g, _ => (Node.link ('#' :: g) txt, 0)
         | none, none, some g => (Node.link ('#' :: g) txt, 0)
         | none, none, none => (Node.link (fp ++ '#' :: a) txt, 1))) ∧
    (startsW (S "/") fp = true →
      fixNode cur pfx reg f2p (.link (fp ++ '#' :: a) txt) =
        (match dlookup reg (fp ++ '#' :: a),
               dlookup reg (basename fp ++ '#' :: a) with
         | some g, _ => (Node.link ('#' :: g) txt, 0)
         | none, some g => (Node.link ('#' :: g) txt, 0)
         | none, none => (Node.link (fp ++ '#' :: a) txt, 1))) := by
  constructor
  · intro h5
    rw [fixNode_cross cur pfx reg f2p fp a txt h1 h2 h3 h4]
    simp only [crossKeys, h5, Bool.false_eq_true, if_false, List.cons_append,
      List.nil_append]
    cases hx : dlookup reg (fp ++ '#' :: a) <;>
      cases hy : dlookup reg (basename fp ++ '#' :: a) <;>
        cases hz : dlookup reg (normpath (joinPath (dirname cur) fp) ++ '#' :: a) <;>
          simp [resolveFirst, hx, hy, hz]
  · intro h5
    rw [fixNode_cross cur pfx reg f2p fp a txt h1 h2 h3 h4]
    cases hx : dlookup reg (fp ++ '#' :: a) <;>
      cases hy : dlookup reg (basename fp ++ '#' :: a) <;>
        simp [crossKeys, h5, resolveFirst, hx, hy]

/-- C3 witness: relative case — a link `ch2.html#x` from `t/cur.html` misses
the exact and basename keys and resolves through the directory-normalized
key `t/ch2.html#x`; absolute case — a link `/abs/ch3.html#y` resolves
through its exact key. -/
theorem C3_witness :
    (fixNode (S "t/cur.html") (S "t_cur") [(S "t/ch2.html#x", S "t_ch2_x")] []
        (.link (S "ch2.html" ++ '#' :: S "x") (S "go")) =
      (.link ('#' :: S "t_ch2_x") (S "go"), 0)) ∧
    (fixNode (S "t/cur.html") (S "t_cur") [(S "/abs/ch3.html#y", S "abs_ch3_y")] []
        (.link (S "/abs/ch3.html" ++ '#' :: S "y") (S "go")) =
      (.link ('#' :: S "abs_ch3_y") (S "go"), 0)) := by
  constructor
  · rw [(C3_cross_link_resolution_order (S "t/cur.html") (S "t_cur")
        [(S "t/ch2.html#x", S "t_ch2_x")] [] (S "ch2.html") (S "x") (S "go")
        (by decide) (by decide) (by decide) (by decide)).1 (by decide)]
    decide
  · rw [(C3_cross_link_resolution_order (S "t/cur.html") (S "t_cur")
        [(S "/abs/ch3.html#y", S "abs_ch3_y")] [] (S "/abs/ch3.html") (S "y") (S "go")
        (by decide) (by decide) (by decide) (by decide)).2 (by decide)]
    decide

/-! ## Claim C5 -/

/-- C5: For a same-file link `#anchor` (non-external, non-page-number), if the
bare anchor is a key of the global registry the link is rewritten to `#` +
the registry's global id for it; only on a registry miss is it rewritten to
`#` + currentPrefix + `_` + anchor without consulting the registry. -/
theorem C5_samefile_link (cur pfx : Str) (reg f2p : Dict Str) (a txt : Str)
    (h : pageAnchorCheck ('#' :: a) = false) :
    (∀ g, dlookup reg a = some g →
        fixNode cur pfx reg f2p (.link ('#' :: a) txt) = (.link ('#' :: g) txt, 0)) ∧
    (dlookup reg a = none →
        fixNode cur pfx reg f2p (.link ('#' :: a) txt) =
          (.link ('#' :: (pfx ++ '_' :: a)) txt, 0)) := by
  constructor
  · intro g hg; rw [fixNode_samefile cur pfx reg f2p a txt h, hg]; rfl
  · intro hg; rw [fixNode_samefile cur pfx reg f2p a txt h, hg]; rfl

/-- C5 witness: `#x` in chapter `ch1` resolves through the registry to
`ch2_x`, which differs from the naive concatenation `ch1_x`. -/
theorem C5_witness :
    fixNode (S "ch1.html") (S "ch1") [(S "x", S "ch2_x")] []
        (.link ('#' :: S "x") (S "t")) =
      (.link ('#' :: S "ch2_x") (S "t"), 0) ∧ S "ch2_x" ≠ S "ch1" ++ '_' :: S "x" :=
  ⟨(C5_samefile_link (S "ch1.html") (S "ch1") [(S "x", S "ch2_x")] [] (S "x")
      (S "t") (by decide)).1 (S "ch2_x") (by decide), by decide⟩

/-! ## Claim C9 -/

/-- C9: A link whose target carries a page-number anchor (`page_...`) has its
wrapper removed with the text content preserved and no target rewriting,
while a non-page same-file link of the same fragment is rewritten under the
normal resolution rules. -/
theorem C9_page_anchor_unwrap (cur pfx : Str) (reg f2p : Dict Str)
    (href1 t1 a t2 : Str)
    (h1 : pageAnchorCheck href1 = true) (h2 : externalHref href1 = false)
    (h3 : pageAnchorCheck ('#' :: a) = false) :
    fixNodes cur pfx reg f2p [.link href1 t1, .link ('#' :: a) t2] =
      ([.text t1, .link ('#' :: ((dlookup reg a).getD (pfx ++ '_' :: a))) t2], 0) := by
  simp only [fixNodes]
  rw [fixNode_samefile cur pfx reg f2p a t2 h3]
  simp [fixNode, h1, h2]

/-- C9 witness: `toc.html#page_42` is unwrapped to its text while `#sec` in
the same fragment is rewritten through the registry. -/
theorem C9_witness :
    fixNodes (S "ch1.html") (S "ch1") [(S "sec", S "ch2_sec")] []
        [.link (S "toc.html#page_42") (S "42"), .link ('#' :: S "sec") (S "see")] =
      ([.text (S "42"), .link ('#' :: S "ch2_sec") (S "see")], 0) := by
  rw [C9_page_anchor_unwrap (S "ch1.html") (S "ch1") [(S "sec", S "ch2_sec")] []
      (S "toc.html#page_42") (S "42") (S "sec") (S "see")
      (by decide) (by decide) (by decide)]
  decide

/-! ## Claim C6 -/

/-- C6: The outline builder processes the flat entry sequence with a stack of
(depth, node) pairs — popping while the top's depth is `≥ D`, parenting the
new node to the remaining top (or none), then pushing — so the sequence
`[(0,A),(1,B),(1,C),(0,D)]` yields A as parent of B and of C, and D as a
root sibling of A, never a child of A; this holds for every registry,
prefix map and page map. -/
theorem C6_outline_stack (reg f2p : Dict Str) (a2p : Dict Nat)
    (tA tB tC tD hA hB hC hD : Str) :
    (addBookmarks [⟨0, tA, hA⟩, ⟨1, tB, hB⟩, ⟨1, tC, hC⟩, ⟨0, tD, hD⟩]
        reg f2p a2p).map (fun b => (b.title, b.parent)) =
      [(tA, none), (tB, some 0), (tC, some 0), (tD, none)] := rfl

/-! ## Claim C7 -/

theorem addBookmarks_fold (entries : List TocEntry) (reg f2p : Dict Str)
    (a2p : Dict Nat) (st : List (Nat × Nat) × List Bookmark) :
    ((entries.foldl (bookmarkStep reg f2p a2p) st).2).map (fun b => (b.title, b.page)) =
      st.2.map (fun b => (b.title, b.page)) ++
        entries.map (fun e => (e.title, resolvePage a2p (resolveTargetId reg f2p e.href))) := by
  induction entries generalizing st with
  | nil => simp
  | cons e t ih =>
    rw [List.foldl_cons, ih]
    simp [bookmarkStep]

theorem addBookmarks_titles_pages (entries : List TocEntry) (reg f2p : Dict Str)
    (a2p : Dict Nat) :
    (addBookmarks entries reg f2p a2p).map (fun b => (b.title, b.page)) =
      entries.map (fun e => (e.title, resolvePage a2p (resolveTargetId reg f2p e.href))) := by
  simpa [addBookmarks] using addBookmarks_fold entries reg f2p a2p ([], [])

theorem resolvePage_default (a2p : Dict Nat) (tid : Str)
    (h : ∀ k ∈ pageSearchKeys tid, dlookup a2p k = none) :
    resolvePage a2p tid = 0 := by
  have h1 := h tid (by simp [pageSearchKeys])
  have h2 := h (tid.map Char.toLower) (by simp [pageSearchKeys])
  have h3 := h (tid.map (fun c => if c = '_' then '-' else c)) (by simp [pageSearchKeys])
  simp [resolvePage, resolveFirst, pageSearchKeys, h1, h2, h3]

/-- C7: An outline entry whose resolved target identifier has no binding in
the anchor-to-page map under any of the three tried forms (as-is,
lowercased, underscores replaced by hyphens) gets page index 0 and is still
added to the output outline — the output has one bookmark per entry. -/
theorem C7_page_default (reg f2p : Dict Str) (a2p : Dict Nat)
    (pre post : List TocEntry) (e : TocEntry)
    (h : ∀ k ∈ pageSearchKeys (resolveTargetId reg f2p e.href), dlookup a2p k = none) :
    ((addBookmarks (pre ++ e :: post) reg f2p a2p).map (fun b => b.page))[pre.length]? =
        some 0 ∧
      (addBookmarks (pre ++ e :: post) reg f2p a2p).length = (pre ++ e :: post).length := by
  have hm := addBookmarks_titles_pages (pre ++ e :: post) reg f2p a2p
  have hlen : (addBookmarks (pre ++ e :: post) reg f2p a2p).length =
      (pre ++ e :: post).length := by
    have := congrArg List.length hm
    simpa using this
  refine ⟨?_, hlen⟩
  have hp : (addBookmarks (pre ++ e :: post) reg f2p a2p).map (fun b => b.page) =
      (pre ++ e :: post).map (fun x => resolvePage a2p (resolveTargetId reg f2p x.href)) := by
    have := congrArg (List.map (fun pr : Str × Nat => pr.2)) hm
    simpa [List.map_map, Function.comp] using this
  rw [hp, List.getElem?_map, List.getElem?_append_right (Nat.le_refl pre.length)]
  simp [resolvePage_default a2p _ h]

/-- C7 witness: a lone entry whose anchor occurs on no page is still emitted,
pointing at page 0. -/
theorem C7_witness :
    ((addBookmarks (([] : List TocEntry) ++
          (⟨0, S "Intro", S "intro.html#i1"⟩ : TocEntry) :: []) [] [] []).map
        (fun b => b.page))[(0 : Nat)]? = some 0 ∧
      (addBookmarks (([] : List TocEntry) ++
          (⟨0, S "Intro", S "intro.html#i1"⟩ : TocEntry) :: []) [] [] []).length = 1 := by
  have := C7_page_default [] [] [] [] [] ⟨0, S "Intro", S "intro.html#i1"⟩ (by decide)
  simpa using this

/-! ## Claim C10 -/

theorem dlookup_regOne (pfx path : Str) (r : Dict Str) (i x : Str) (hx : '#' ∉ x) :
    dlookup (regOne pfx path r i) x =
      if x = i then some (globalId pfx i) else dlookup r x := by
  unfold regOne
  rw [dlookup_dinsert, dlookup_dinsert, dlookup_dinsert]
  have h1 : ¬ x = basename path ++ '#' :: i := fun hh => hx (by rw [hh]; simp)
  have h2 : ¬ x = path ++ '#' :: i := fun hh => hx (by rw [hh]; simp)
  rw [if_neg h1, if_neg h2]

theorem dlookup_idsFold (ids : List Str) (pfx path : Str) (r : Dict Str) (x : Str)
    (hx : '#' ∉ x) :
    dlookup (ids.foldl (regOne pfx path) r) x =
      if x ∈ ids then some (globalId pfx x) else dlookup r x := by
  induction ids generalizing r with
  | nil => simp
  | cons i t ih =>
    rw [List.foldl_cons, ih, dlookup_regOne pfx path r i x hx]
    by_cases hxt : x ∈ t
    · simp [hxt, List.mem_cons]
    · by_cases hxi : x = i
      · subst hxi; simp [hxt]
      · simp [hxt, hxi, List.mem_cons]

theorem dlookup_registerFragment_fst (acc : Dict Str × Dict Str) (f : Fragment)
    (x : Str) (hx : '#' ∉ x) :
    dlookup (registerFragment acc f).1 x =
      if x ∈ f.ids then some (globalId (chapterPfx f.path) x) else dlookup acc.1 x := by
  simpa [registerFragment] using
    dlookup_idsFold f.ids (chapterPfx f.path) f.path acc.1 x hx

theorem dlookup_registry_fold (fs : List Fragment) (acc : Dict Str × Dict Str)
    (x : Str) (hx : '#' ∉ x) :
    dlookup (fs.foldl registerFragment acc).1 x =
      (match fs.reverse.find? (fun f => decide (x ∈ f.ids)) with
       | some f => some (globalId (chapterPfx f.path) x)
       | none => dlookup acc.1 x) := by
  induction fs generalizing acc with
  | nil => simp
  | cons f t ih =>
    rw [List.foldl_cons, ih, List.reverse_cons, List.find?_append]
    cases hf : t.reverse.find? (fun f => decide (x ∈ f.ids)) with
    | some g => simp [Option.or]
    | none =>
      rw [dlookup_registerFragment_fst acc f x hx]
      by_cases hm : x ∈ f.ids
      · simp [Option.or, List.find?, hm]
      · simp [Option.or, List.find?, hm]

/-- C10: The bare-key registry entry for a local anchor id `x` (with no `#`
in it) holds the prefixed global id of the fragment latest in spine order
that defines `x` — each fragment's registration overwrites the previous
bare-key binding — and a same-file link `#x` in any fragment is rewritten to
that latest fragment's global id. -/
theorem C10_bare_key_last_writer (fs : List Fragment) (x : Str) (f : Fragment)
    (cur pfx : Str) (f2p : Dict Str) (txt : Str)
    (hx : '#' ∉ x)
    (hlast : lastContaining fs x = some f)
    (hpg : pageAnchorCheck ('#' :: x) = false) :
    dlookup (buildGlobalIdRegistry fs).1 x = some (globalId (chapterPfx f.path) x) ∧
    fixNode cur pfx (buildGlobalIdRegistry fs).1 f2p (.link ('#' :: x) txt) =
      (.link ('#' :: globalId (chapterPfx f.path) x) txt, 0) := by
  have hreg : dlookup (buildGlobalIdRegistry fs).1 x =
      some (globalId (chapterPfx f.path) x) := by
    unfold lastContaining at hlast
    rw [buildGlobalIdRegistry, dlookup_registry_fold fs ([], []) x hx, hlast]
  refine ⟨hreg, ?_⟩
  rw [fixNode_samefile cur pfx _ f2p x txt hpg, hreg]
  rfl

/-- C10 witness: `x` defined in `ch1.html` and `ch2.html`; the bare key holds
`ch2_x` and a `#x` link inside `ch1` is rewritten to `#ch2_x`. -/
theorem C10_witness :
    dlookup (buildGlobalIdRegistry
        [⟨S "ch1.html", [S "x"]⟩, ⟨S "ch2.html", [S "x"]⟩]).1 (S "x") =
      some (globalId (chapterPfx (S "ch2.html")) (S "x")) ∧
    fixNode (S "ch1.html") (S "ch1")
        (buildGlobalIdRegistry [⟨S "ch1.html", [S "x"]⟩, ⟨S "ch2.html", [S "x"]⟩]).1 []
        (.link ('#' :: S "x") (S "t")) =
      (.link ('#' :: globalId (chapterPfx (S "ch2.html")) (S "x")) (S "t"), 0) :=
  C10_bare_key_last_writer
    [⟨S "ch1.html", [S "x"]⟩, ⟨S "ch2.html", [S "x"]⟩] (S "x")
    ⟨S "ch2.html", [S "x"]⟩ (S "ch1.html") (S "ch1") [] (S "t")
    (by decide) (by decide) (by decide)

/-! ## Claim C4 -/

theorem resolveTargetId_exact (reg f2p : Dict Str) (fp a g : Str)
    (h2 : '#' ∉ fp) (hg : dlookup reg (fp ++ '#' :: a) = some g) (hne : g ≠ []) :
    resolveTargetId reg f2p (fp ++ '#' :: a) = g := by
  unfold resolveTargetId
  rw [splitFirst?_hash_append fp a h2]
  simp only [bookmarkKeys, List.cons_append, resolveFirst, hg]
  simp [hne]

/-- C4 counterexample: on target `sub/a.html#x` with registry
`{a.html#x ↦ A_x, x ↦ B_x}` the bookmark pass resolves to `B_x` (it tries
the bare anchor before the basename variant and has no directory-resolved
variant) while the link rewriter resolves the same target to `A_x` — so the
candidate-key orders of the two passes are not identical. -/
theorem C4_counterexample :
    resolveTargetId [(S "a.html#x", S "A_x"), (S "x", S "B_x")] [] (S "sub/a.html#x") =
        S "B_x" ∧
      fixNode (S "q.html") (S "q") [(S "a.html#x", S "A_x"), (S "x", S "B_x")] []
          (.link (S "sub/a.html#x") (S "t")) =
        (.link (S "#A_x") (S "t"), 0) ∧
      S "B_x" ≠ S "A_x" := by decide

/-- C4 (amended): both passes try the exact `path#anchor` key first, so they
agree whenever that key is present (with a nonempty global id); beyond that
the orders differ — the bookmark pass tries the bare anchor before the
basename variant and has no directory-resolved variant. -/
theorem C4_exact_key_agreement (reg f2p : Dict Str) (cur pfx fp a txt g : Str)
    (h1 : fp ≠ []) (h2 : '#' ∉ fp)
    (h3 : externalHref (fp ++ '#' :: a) = false)
    (h4 : pageAnchorCheck (fp ++ '#' :: a) = false)
    (hg : dlookup reg (fp ++ '#' :: a) = some g) (hne : g ≠ []) :
    resolveTargetId reg f2p (fp ++ '#' :: a) = g ∧
    fixNode cur pfx reg f2p (.link (fp ++ '#' :: a) txt) = (.link ('#' :: g) txt, 0) := by
  refine ⟨resolveTargetId_exact reg f2p fp a g h2 hg hne, ?_⟩
  rw [fixNode_cross cur pfx reg f2p fp a txt h1 h2 h3 h4]
  simp [crossKeys, resolveFirst, hg]

/-- C4 witness: with the exact key `t/ch2.html#x` registered, the bookmark
pass and the link rewriter resolve `t/ch2.html#x` identically. -/
theorem C4_witness :
    resolveTargetId [(S "t/ch2.html#x", S "G_x")] [] (S "t/ch2.html" ++ '#' :: S "x") =
        S "G_x" ∧
      fixNode (S "t/ch1.html") (S "t_ch1") [(S "t/ch2.html#x", S "G_x")] []
          (.link (S "t/ch2.html" ++ '#' :: S "x") (S "t")) =
        (.link ('#' :: S "G_x") (S "t"), 0) :=
  C4_exact_key_agreement [(S "t/ch2.html#x", S "G_x")] [] (S "t/ch1.html") (S "t_ch1")
    (S "t/ch2.html") (S "x") (S "t") (S "G_x")
    (by decide) (by decide) (by decide) (by decide) (by decide) (by decide)

/-! ## Claim C1 -/

theorem splitLastDot_no_dot (b : Str) (h : '.' ∉ b) : splitLastDot b = none := by
  induction b with
  | nil => rfl
  | cons c t ih =>
    simp only [List.mem_cons, not_or] at h
    simp [splitLastDot, ih h.2, (show ¬ c = '.' from fun hh => h.1 hh.symm)]

theorem splitLastDot_append (t e : Str) (he : '.' ∉ e) :
    splitLastDot (t ++ '.' :: e) = some (t, e) := by
  induction t with
  | nil => simp [splitLastDot, splitLastDot_no_dot e he]
  | cons c r ih => simp [splitLastDot, ih]

theorem stemOf_append (t e : Str) (he : '.' ∉ e) (ht : ∃ c ∈ t, ¬ c = '.') :
    stemOf (t ++ '.' :: e) = t := by
  obtain ⟨c, hc, hcd⟩ := ht
  have hall : t.all (fun c => c = '.') = false := by
    rcases hall : t.all (fun c => c = '.') with _ | _
    · rfl
    · exact absurd (by simpa using List.all_eq_true.mp hall c hc) hcd
  simp [stemOf, splitLastDot_append t e he, hall]

theorem flattenChar_dot_iff (c : Char) : flattenChar c = '.' ↔ c = '.' := by
  unfold flattenChar
  by_cases h : c = '/' ∨ c = '\\'
  · rcases h with h | h <;> subst h <;> decide
  · simp [h]

theorem flattenChar_inj (a b : Char) (ha1 : a ≠ '_') (ha2 : a ≠ '\\')
    (hb1 : b ≠ '_') (hb2 : b ≠ '\\') (h : flattenChar a = flattenChar b) : a = b := by
  by_cases ha : a = '/'
  · by_cases hb : b = '/'
    · rw [ha, hb]
    · simp [flattenChar, ha, hb, hb2] at h
      exact absurd h.symm hb1
  · by_cases hb : b = '/'
    · simp [flattenChar, ha, hb, ha2] at h
      exact absurd h ha1
    · simpa [flattenChar, ha, hb, ha2, hb2] using h

theorem flatten_inj (s1 s2 : Str) (h1u : '_' ∉ s1) (h1b : '\\' ∉ s1)
    (h2u : '_' ∉ s2) (h2b : '\\' ∉ s2) (h : flatten s1 = flatten s2) : s1 = s2 := by
  induction s1 generalizing s2 with
  | nil =>
    cases s2 with
    | nil => rfl
    | cons d r => simp [flatten] at h
  | cons c t ih =>
    cases s2 with
    | nil => simp [flatten] at h
    | cons d r =>
      simp only [flatten, List.map_cons, List.cons.injEq] at h
      simp only [List.mem_cons, not_or] at h1u h1b h2u h2b
      have hcd : c = d :=
        flattenChar_inj c d (fun hh => h1u.1 hh.symm) (fun hh => h1b.1 hh.symm)
          (fun hh => h2u.1 hh.symm) (fun hh => h2b.1 hh.symm) h.1
      rw [hcd, ih r h1u.2 h1b.2 h2u.2 h2b.2 h.2]

theorem chapterPfx_ext (s e : Str) (he : '.' ∉ e) (hs : ∃ c ∈ s, ¬ c = '.') :
    chapterPfx (s ++ '.' :: e) = flatten s := by
  have hflat : flatten (s ++ '.' :: e) = flatten s ++ '.' :: flatten e := by
    simp [flatten]
    rfl
  rw [chapterPfx, hflat]
  apply stemOf_append
  · intro hmem
    obtain ⟨c, hc, hfc⟩ := List.mem_map.mp hmem
    exact he ((flattenChar_dot_iff c).mp hfc ▸ hc)
  · obtain ⟨c, hc, hcd⟩ := hs
    exact ⟨flattenChar c, List.mem_map_of_mem _ hc,
      fun hh => hcd ((flattenChar_dot_iff c).mp hh)⟩

theorem dlookup_registry_f2p (fs : List Fragment) (acc : Dict Str × Dict Str) (p : Str) :
    dlookup (fs.foldl registerFragment acc).2 p =
      (match fs.reverse.find? (fun f => decide (f.path = p)) with
       | some f => some (chapterPfx f.path)
       | none => dlookup acc.2 p) := by
  induction fs generalizing acc with
  | nil => simp
  | cons f t ih =>
    rw [List.foldl_cons, ih, List.reverse_cons, List.find?_append]
    cases hf : t.reverse.find? (fun f => decide (f.path = p)) with
    | some g => simp [Option.or]
    | none =>
      simp only [registerFragment]
      rw [dlookup_dinsert]
      by_cases hm : f.path = p
      · simp [Option.or, List.find?, hm]
      · rw [if_neg (fun hh : p = f.path => hm hh.symm)]
        simp [Option.or, List.find?, hm]

theorem f2p_lookup_mem (fs : List Fragment) (f : Fragment) (hf : f ∈ fs) :
    dlookup (buildGlobalIdRegistry fs).2 f.path = some (chapterPfx f.path) := by
  rw [buildGlobalIdRegistry, dlookup_registry_f2p fs ([], []) f.path]
  have hex : (fs.reverse.find? (fun g => decide (g.path = f.path))).isSome :=
    List.find?_isSome.mpr ⟨f, List.mem_reverse.mpr hf, by simp⟩
  cases hfind : fs.reverse.find? (fun g => decide (g.path = f.path)) with
  | none => rw [hfind] at hex; simp at hex
  | some g =>
    have hg : g.path = f.path := by simpa using List.find?_some hfind
    simp [hg]

/-- C1 counterexample: the fragments `a/b.html` and `a_b.html` have distinct
full paths yet the registry build records the same prefix `a_b` for both,
and the global identifiers assigned to a shared local anchor id `x`
coincide. -/
theorem C1_counterexample :
    (S "a/b.html" ≠ S "a_b.html") ∧
      dlookup (buildGlobalIdRegistry
          [⟨S "a/b.html", [S "x"]⟩, ⟨S "a_b.html", [S "x"]⟩]).2 (S "a/b.html") =
        some (S "a_b") ∧
      dlookup (buildGlobalIdRegistry
          [⟨S "a/b.html", [S "x"]⟩, ⟨S "a_b.html", [S "x"]⟩]).2 (S "a_b.html") =
        some (S "a_b") ∧
      globalId (chapterPfx (S "a/b.html")) (S "x") =
        globalId (chapterPfx (S "a_b.html")) (S "x") := by decide

/-- C1 (amended): for two content-bearing fragments whose paths are
`s1 ++ "." ++ ext` and `s2 ++ "." ++ ext` with the same dot-free extension,
distinct stems `s1 ≠ s2` that contain no underscore or backslash and some
non-dot character, the prefixes recorded in the fragment-prefix map are
distinct and the global identifiers assigned to a shared local anchor id
are distinct — in particular for basename collisions, where the stems differ
in their directory part.  (Unrestricted distinct paths can collide, e.g.
`a/b.html` vs `a_b.html`.) -/
theorem C1_pfx_injective_restricted (fs : List Fragment) (f1 f2 : Fragment)
    (s1 s2 e x : Str)
    (hf1 : f1 ∈ fs) (hf2 : f2 ∈ fs)
    (hp1 : f1.path = s1 ++ '.' :: e) (hp2 : f2.path = s2 ++ '.' :: e)
    (hne : s1 ≠ s2)
    (h1u : '_' ∉ s1) (h1b : '\\' ∉ s1) (h2u : '_' ∉ s2) (h2b : '\\' ∉ s2)
    (he : '.' ∉ e)
    (hs1 : ∃ c ∈ s1, ¬ c = '.') (hs2 : ∃ c ∈ s2, ¬ c = '.') :
    dlookup (buildGlobalIdRegistry fs).2 f1.path = some (chapterPfx f1.path) ∧
    dlookup (buildGlobalIdRegistry fs).2 f2.path = some (chapterPfx f2.path) ∧
    chapterPfx f1.path ≠ chapterPfx f2.path ∧
    globalId (chapterPfx f1.path) x ≠ globalId (chapterPfx f2.path) x := by
  have hpfx : chapterPfx f1.path ≠ chapterPfx f2.path := by
    rw [hp1, hp2, chapterPfx_ext s1 e he hs1, chapterPfx_ext s2 e he hs2]
    intro h
    exact hne (flatten_inj s1 s2 h1u h1b h2u h2b h)
  refine ⟨f2p_lookup_mem fs f1 hf1, f2p_lookup_mem fs f2 hf2, hpfx, ?_⟩
  intro h
  exact hpfx (List.append_left_injective ('_' :: x) h)

/-- C1 witness: a genuine basename collision — `dir/ch.html` vs
`other/ch.html` — yields distinct recorded prefixes and distinct global ids
for the shared anchor `x`. -/
theorem C1_witness :
    dlookup (buildGlobalIdRegistry
        [⟨S "dir/ch.html", [S "x"]⟩, ⟨S "other/ch.html", [S "x"]⟩]).2
        (S "dir/ch.html") = some (chapterPfx (S "dir/ch.html")) ∧
      dlookup (buildGlobalIdRegistry
        [⟨S "dir/ch.html", [S "x"]⟩, ⟨S "other/ch.html", [S "x"]⟩]).2
        (S "other/ch.html") = some (chapterPfx (S "other/ch.html")) ∧
      chapterPfx (S "dir/ch.html") ≠ chapterPfx (S "other/ch.html") ∧
      globalId (chapterPfx (S "dir/ch.html")) (S "x") ≠
        globalId (chapterPfx (S "other/ch.html")) (S "x") :=
  C1_pfx_injective_restricted
    [⟨S "dir/ch.html", [S "x"]⟩, ⟨S "other/ch.html", [S "x"]⟩]
    ⟨S "dir/ch.html", [S "x"]⟩ ⟨S "other/ch.html", [S "x"]⟩
    (S "dir/ch") (S "other/ch") (S "html") (S "x")
    (by decide) (by decide) (by decide) (by decide) (by decide) (by decide)
    (by decide) (by decide) (by decide) (by decide) (by decide) (by decide)

/-! ## Claim C2 -/

theorem underscore_append_inj (p1 p2 i1 i2 : Str) (h1 : '_' ∉ p1) (h2 : '_' ∉ p2)
    (h : p1 ++ '_' :: i1 = p2 ++ '_' :: i2) : p1 = p2 ∧ i1 = i2 := by
  induction p1 generalizing p2 with
  | nil =>
    cases p2 with
    | nil => simpa using h
    | cons d r =>
      simp only [List.mem_cons, not_or] at h2
      simp only [List.nil_append, List.cons_append, List.cons.injEq] at h
      exact absurd h.1 h2.1
  | cons c t ih =>
    cases p2 with
    | nil =>
      simp only [List.mem_cons, not_or] at h1
      simp only [List.nil_append, List.cons_append, List.cons.injEq] at h
      exact absurd h.1.symm h1.1
    | cons d r =>
      simp only [List.mem_cons, not_or] at h1 h2
      simp only [List.cons_append, List.cons.injEq] at h
      obtain ⟨he1, he2⟩ := ih r h1.2 h2.2 h.2
      exact ⟨by rw [h.1, he1], he2⟩

theorem fragIds_nodup (f : Fragment) (hids : f.ids.Nodup) : (fragIds f).Nodup := by
  unfold fragIds
  rw [List.nodup_cons]
  constructor
  · intro hmem
    obtain ⟨i, _, hgi⟩ := List.mem_map.mp hmem
    have := congrArg List.length hgi
    simp [globalId] at this
  · refine hids.map ?_
    intro i1 i2 hh
    have h2 := List.append_cancel_left (show chapterPfx f.path ++ '_' :: i1 =
      chapterPfx f.path ++ '_' :: i2 from hh)
    simpa using h2

theorem mem_mergedIds (fs : List Fragment) (x : Str) :
    x ∈ mergedIds fs ↔ ∃ f ∈ fs, x ∈ fragIds f := by
  induction fs with
  | nil => simp [mergedIds]
  | cons f t ih => simp [mergedIds, ih, List.mem_append]

theorem fragIds_disjoint (f g : Fragment)
    (hne : chapterPfx f.path ≠ chapterPfx g.path)
    (hfu : '_' ∉ chapterPfx f.path) (hgu : '_' ∉ chapterPfx g.path)
    (x : Str) (hxf : x ∈ fragIds f) (hxg : x ∈ fragIds g) : False := by
  unfold fragIds at hxf hxg
  rcases List.mem_cons.mp hxf with h1 | h1 <;> rcases List.mem_cons.mp hxg with h2 | h2
  · exact hne (by rw [← h1, ← h2])
  · obtain ⟨i, _, hgi⟩ := List.mem_map.mp h2
    apply hfu
    have hh : chapterPfx f.path = globalId (chapterPfx g.path) i := by
      rw [← h1]; exact hgi.symm
    rw [hh]
    simp [globalId]
  · obtain ⟨i, _, hgi⟩ := List.mem_map.mp h1
    apply hgu
    have hh : chapterPfx g.path = globalId (chapterPfx f.path) i := by
      rw [← h2]; exact hgi.symm
    rw [hh]
    simp [globalId]
  · obtain ⟨i, _, hgi⟩ := List.mem_map.mp h1
    obtain ⟨j, _, hgj⟩ := List.mem_map.mp h2
    have hh : globalId (chapterPfx f.path) i = globalId (chapterPfx g.path) j := by
      rw [hgi, ← hgj]
    exact hne (underscore_append_inj _ _ _ _ hfu hgu hh).1

/-- C2 counterexample: a single fragment whose markup carries two elements
with the same id `x` — after the deduplication pass both are renamed to
`c_x`, so the merged document still contains a duplicated identifier. -/
theorem C2_counterexample :
    ¬ (mergedIds [⟨S "c.html", [S "x", S "x"]⟩]).Nodup := by decide

/-- C2 (amended): provided the fragments' derived prefixes are pairwise
distinct and contain no underscore, and each fragment's local ids are
duplicate-free, then after the ID deduplication pass (each id renamed to
`prefix_id`) and section wrapping (section id = prefix) every pair of
distinct elements in the merged flattened document has unequal
identifiers. -/
theorem C2_merged_ids_nodup (fs : List Fragment)
    (hpfx : (fs.map (fun f => chapterPfx f.path)).Nodup)
    (hund : ∀ f ∈ fs, '_' ∉ chapterPfx f.path)
    (hids : ∀ f ∈ fs, f.ids.Nodup) :
    (mergedIds fs).Nodup := by
  induction fs with
  | nil => simp [mergedIds]
  | cons f t ih =>
    rw [mergedIds, List.nodup_append]
    have hpfx2 : chapterPfx f.path ∉ t.map (fun g => chapterPfx g.path) ∧
        (t.map (fun g => chapterPfx g.path)).Nodup := by
      rw [List.map_cons, List.nodup_cons] at hpfx
      exact hpfx
    refine ⟨fragIds_nodup f (hids f (by simp)), ih hpfx2.2
      (fun g hg => hund g (by simp [hg])) (fun g hg => hids g (by simp [hg])), ?_⟩
    intro x hxf hxt
    obtain ⟨g, hg, hxg⟩ := (mem_mergedIds t x).mp hxt
    have hne : chapterPfx f.path ≠ chapterPfx g.path := by
      intro hh
      exact hpfx2.1 (hh ▸ List.mem_map_of_mem _ hg)
    exact fragIds_disjoint f g hne (hund f (by simp)) (hund g (by simp [hg])) x hxf hxg

/-- C2 witness: two well-behaved fragments with a shared local id `x` —
after deduplication and wrapping all merged identifiers are pairwise
distinct. -/
theorem C2_witness :
    (mergedIds [⟨S "a.html", [S "x"]⟩, ⟨S "b.html", [S "x", S "y"]⟩]).Nodup :=
  C2_merged_ids_nodup [⟨S "a.html", [S "x"]⟩, ⟨S "b.html", [S "x", S "y"]⟩]
    (by decide) (by decide) (by decide)

/-! ## Claim C8 -/

theorem dlookup_bindFold (found : Str → Bool) (cands : List Str) (idx : Nat)
    (m : Dict Nat) (c : Str) :
    dlookup (cands.foldl
        (fun m c => if found c && (dlookup m c).isNone then dinsert m c idx else m) m) c =
      if c ∈ cands ∧ found c = true ∧ dlookup m c = none then some idx
      else dlookup m c := by
  induction cands generalizing m with
  | nil => simp
  | cons a t ih =>
    rw [List.foldl_cons, ih]
    by_cases hac : a = c
    · subst hac
      by_cases hf : found a = true
      · by_cases hm : dlookup m a = none
        · have hstep : dlookup (if (found a && (dlookup m a).isNone) = true
              then dinsert m a idx else m) a = some idx := by
            rw [if_pos (by simp [hf, hm]), dlookup_dinsert, if_pos rfl]
          rw [hstep, if_neg (by simp), if_pos ⟨List.mem_cons_self a t, hf, hm⟩]
        · have hno : (dlookup m a).isNone = false := by
            cases ho : dlookup m a with
            | none => exact absurd ho hm
            | some v => rfl
          have hstep : dlookup (if (found a && (dlookup m a).isNone) = true
              then dinsert m a idx else m) a = dlookup m a := by
            rw [if_neg (by simp [hno])]
          rw [hstep, if_neg (fun hh => hm hh.2.2), if_neg (fun hh => hm hh.2.2)]
      · have hstep : dlookup (if (found a && (dlookup m a).isNone) = true
            then dinsert m a idx else m) a = dlookup m a := by
          rw [if_neg (by simp [hf])]
        rw [hstep, if_neg (fun hh => hf hh.2.1), if_neg (fun hh => hf hh.2.1)]
    · have hca : ¬ c = a := fun hh => hac hh.symm
      have hstep : dlookup (if (found a && (dlookup m a).isNone) = true
          then dinsert m a idx else m) c = dlookup m c := by
        by_cases hcond : (found a && (dlookup m a).isNone) = true
        · rw [if_pos hcond, dlookup_dinsert, if_neg hca]
        · rw [if_neg hcond]
      rw [hstep]
      simp [List.mem_cons, hca]

theorem dlookup_scanPage (cands : List Str) (idx : Nat) (pg : Page) (m : Dict Nat)
    (c : Str) :
    dlookup (scanPage cands idx pg m) c =
      if c ∈ cands ∧ pageHas c pg = true ∧ dlookup m c = none then some idx
      else dlookup m c := by
  unfold scanPage
  rw [dlookup_bindFold (fun c => containsSeq c pg.text) cands idx _ c,
    dlookup_bindFold (fun c => pg.dests.any (fun d => containsSeq c d)) cands idx m c]
  unfold pageHas
  by_cases hc : c ∈ cands <;> by_cases h1 : containsSeq c pg.text = true <;>
    by_cases h2 : pg.dests.any (fun d => containsSeq c d) = true <;>
      by_cases hm : dlookup m c = none <;> simp_all

theorem dlookup_pagesFold (pages : List Page) (cands : List Str) (m : Dict Nat)
    (i : Nat) (c : Str) :
    dlookup ((pages.foldl (fun st pg => (scanPage cands st.2 pg st.1, st.2 + 1)) (m, i)).1) c =
      (match dlookup m c with
       | some v => some v
       | none =>
         if c ∈ cands then (firstIdx? (fun pg => pageHas c pg) pages).map (fun j => j + i)
         else none) := by
  induction pages generalizing m i with
  | nil => cases h : dlookup m c <;> simp [h, firstIdx?]
  | cons pg t ih =>
    rw [List.foldl_cons, ih, dlookup_scanPage]
    cases hm : dlookup m c with
    | some v =>
      rw [if_neg (by simp)]
    | none =>
      by_cases hc : c ∈ cands
      · by_cases hp : pageHas c pg = true
        · rw [if_pos ⟨hc, hp, rfl⟩]
          simp [hc, hp, firstIdx?]
        · rw [if_neg (by simp [hp])]
          simp [hc, hp, firstIdx?]
          cases firstIdx? (fun pg => pageHas c pg) t <;> simp <;> omega
      · rw [if_neg (by simp [hc])]
        simp [hc]

/-- C8 counterexample: the scanner's candidate set also contains every full
registry key — with registry `{a.html#x ↦ p_x}` and a page whose text
contains `a.html#x`, the built map binds the full key `a.html#x` itself,
although that string is not in the claim's candidate set (registry values,
anchor suffixes of keys, fragment-prefix values). -/
theorem C8_counterexample :
    dlookup (buildAnchorToPageMap [⟨S "see a.html#x here", []⟩]
        [(S "a.html#x", S "p_x")] []) (S "a.html#x") = some 0 ∧
      S "a.html#x" ∉ specCandidateIds [(S "a.html#x", S "p_x")] [] := by decide

/-- C8 (amended): the anchor-to-page map is built over the candidate set
consisting of every registry key, every registry key's anchor suffix, every
registry value and every fragment-prefix value; scanning pages in ascending
order, each candidate is bound to the index of the first page on which it
occurs (in extracted text or a destination record) and is never rebound;
strings outside the candidate set are never bound. -/
theorem C8_page_map_spec (pages : List Page) (reg f2p : Dict Str) (c : Str) :
    dlookup (buildAnchorToPageMap pages reg f2p) c =
      (if c ∈ candidateIds reg f2p then firstIdx? (fun pg => pageHas c pg) pages
       else none) := by
  unfold buildAnchorToPageMap
  rw [dlookup_pagesFold pages (candidateIds reg f2p) [] 0 c]
  have hnil : dlookup ([] : Dict Nat) c = none := rfl
  rw [hnil]
  by_cases hc : c ∈ candidateIds reg f2p
  · simp only [hc, if_pos]
    cases firstIdx? (fun pg => pageHas c pg) pages <;> simp
  · simp [hc]
